import Mathlib

/-!
Verification of the numerical core of the Graphium calculator.

The definitions below are shallow embeddings of the corresponding
TypeScript functions: the quadratic classifier, the 2x2 linear system
solver and its equation-text parser, the multi-seed Newton-Raphson root
finder from EquationSolver.tsx, the piecewise sampler, and the base
converter from BaseConverter.tsx.  JavaScript double values are embedded
as rationals; NaN is embedded as the missing value of an Option where a
NaN can actually arise and flow through the computation.
-/

namespace Graphium

/-- A real value of the form p + q * sqrt r with rational p, q, r.
The quadratic solver returns its root values in this exact form, so the
branch payloads of the embedding can stay computable. -/
structure RadQ where
  p : ℚ
  q : ℚ
  r : ℚ
  deriving DecidableEq, Repr

/-- Result of the quadratic classifier: the four branches taken by
solveQuadratic in EquationSolver.tsx (error, two real roots, one
repeated root, complex-conjugate pair).  Each numeric branch also
carries the discriminant, as the displayed result does. -/
inductive QuadResult where
  | err (msg : String)
  | twoReal (disc : ℚ) (x1 x2 : RadQ)
  | oneRepeated (disc : ℚ) (x : ℚ)
  | complexPair (disc : ℚ) (realPart : ℚ) (imagPart : RadQ)
  deriving DecidableEq, Repr

/-- Embedding of solveQuadratic (EquationSolver.tsx, lines 27-66).
The root (-b + sqrt d)/(2a) is recorded exactly as the RadQ value
-b/(2a) + (1/(2a)) * sqrt d, and the imaginary part sqrt(-d)/(2a) of a
complex root as 0 + (1/(2a)) * sqrt (-d). -/
def solveQuadratic (a b c : ℚ) : QuadResult :=
  if a = 0 then QuadResult.err "Coefficient \"a\" cannot be zero for quadratic equation"
  else
    let disc := b * b - 4 * a * c
    if 0 < disc then
      QuadResult.twoReal disc ⟨-b / (2 * a), 1 / (2 * a), disc⟩
        ⟨-b / (2 * a), -(1 / (2 * a)), disc⟩
    else if disc = 0 then
      QuadResult.oneRepeated disc (-b / (2 * a))
    else
      QuadResult.complexPair disc (-b / (2 * a)) ⟨0, 1 / (2 * a), -disc⟩

/-- Embedding of the numeric part of solveSystem (EquationSolver.tsx,
lines 91-104): Cramer's rule on already-parsed coefficients. -/
def solveSystemCoeffs (a1 b1 c1 a2 b2 c2 : ℚ) : Except String (ℚ × ℚ) :=
  let det := a1 * b2 - a2 * b1
  if det = 0 then Except.error "System has no unique solution (determinant = 0)"
  else Except.ok ((c1 * b2 - c2 * b1) / det, (a1 * c2 - a2 * c1) / det)

/-- Step tolerance of findRoots (EquationSolver.tsx, line 119):
successive Newton iterates closer than this means convergence. -/
def newtonTolerance : ℚ := 1 / 10 ^ 10

/-- Iteration cap of findRoots (EquationSolver.tsx, line 120). -/
def newtonMaxIterations : Nat := 100

/-- Near-zero derivative threshold of findRoots (EquationSolver.tsx,
line 130): the current seed is abandoned below it. -/
def derivThreshold : ℚ := 1 / 10 ^ 15

/-- Dedup / residual-acceptance tolerance of findRoots
(EquationSolver.tsx, lines 136-137), 0.0001 in the source. -/
def rootTolerance : ℚ := 1 / 10 ^ 4

/-- The inner Newton-Raphson loop of findRoots (EquationSolver.tsx,
lines 124-143) for one seed, fuelled by the remaining iteration count
(the source runs i = 0 .. maxIterations - 1).  f and df are the compiled
polynomial and its derivative; roots is the accepted-roots accumulator.
A converged candidate xNew is appended exactly when it is not within
rootTolerance of an already-accepted root and its residual is below
rootTolerance. -/
def newtonIter (f df : ℚ → ℚ) (roots : List ℚ) : Nat → ℚ → List ℚ
  | 0, _ => roots
  | n + 1, x =>
    let fx := f x
    let dfx := df x
    if |dfx| < derivThreshold then roots
    else
      let xNew := x - fx / dfx
      if |xNew - x| < newtonTolerance then
        if (∀ r ∈ roots, ¬|r - xNew| < rootTolerance) ∧ |f xNew| < rootTolerance then
          roots ++ [xNew]
        else roots
      else newtonIter f df roots n xNew

/-- Number of loop iterations the inner Newton loop executes for one
seed with the given fuel: companion counter to newtonIter, following the
same branches. -/
def newtonSteps (f df : ℚ → ℚ) : Nat → ℚ → Nat
  | 0, _ => 0
  | n + 1, x =>
    let dfx := df x
    if |dfx| < derivThreshold then 1
    else
      let xNew := x - f x / dfx
      if |xNew - x| < newtonTolerance then 1
      else 1 + newtonSteps f df n xNew

/-- The seed scan of findRoots (EquationSolver.tsx, line 123): the loop
for (start = -10; start <= 10; start += 0.5) visits the 41 values
-10, -9.5, ..., 10. -/
def seeds : List ℚ := (List.range 41).map (fun i : ℕ => -10 + (i : ℚ) / 2)

/-- Embedding of findRoots (EquationSolver.tsx, lines 110-156): run the
Newton loop from every seed, accumulating accepted roots, then sort the
result ascending (roots.sort((a, b) => a - b)). -/
def findRoots (f df : ℚ → ℚ) : List ℚ :=
  List.insertionSort (· ≤ ·)
    (seeds.foldl (fun roots s => newtonIter f df roots newtonMaxIterations s) [])

/-- Value of a single character as a digit, as JS parseInt reads digits:
0-9 and letters (case-insensitive, a = 10, ..., z = 35). -/
def digitVal (c : Char) : Option ℕ :=
  if '0' ≤ c ∧ c ≤ '9' then some (c.toNat - '0'.toNat)
  else if 'a' ≤ c ∧ c ≤ 'z' then some (c.toNat - 'a'.toNat + 10)
  else if 'A' ≤ c ∧ c ≤ 'Z' then some (c.toNat - 'A'.toNat + 10)
  else none

/-- Whether a character is a digit of the given radix. -/
def isRadixDigit (b : ℕ) (c : Char) : Bool :=
  match digitVal c with
  | some v => v < b
  | none => false

/-- Model of JS parseInt(s, b) for an explicit radix b: skip leading
whitespace, read an optional sign, for radix 16 skip an optional 0x/0X
prefix, then read the longest run of radix digits; NaN (here: none) when
that run is empty, otherwise the signed value of the run.  Trailing
non-digit characters are ignored, as in JS. -/
def stripSign (cs : List Char) : ℤ × List Char :=
  match cs with
  | c :: rest =>
    if c = '-' then (-1, rest) else if c = '+' then (1, rest) else (1, c :: rest)
  | [] => (1, [])

/-- The optional 0x / 0X prefix skip of parseInt in base 16. -/
def stripHexPrefix (b : ℕ) (cs : List Char) : List Char :=
  if b = 16 then
    match cs with
    | c0 :: c1 :: rest => if c0 = '0' ∧ (c1 = 'x' ∨ c1 = 'X') then rest else c0 :: c1 :: rest
    | _ => cs
  else cs

def parseIntM (s : String) (b : ℕ) : Option ℤ :=
  let cs0 := s.data.dropWhile (fun c => c.isWhitespace)
  let p := stripSign cs0
  let cs2 := stripHexPrefix b p.2
  let ds := cs2.takeWhile (fun c => isRadixDigit b c)
  if ds.isEmpty then none
  else some (p.1 * (ds.foldl (fun acc c => acc * b + (digitVal c).getD 0) (0 : ℕ) : ℕ))

/-- Character for a digit value, as JS Number.toString(radix) writes it
(lowercase letters from 10 on). -/
def digitChar (n : ℕ) : Char :=
  if n < 10 then Char.ofNat ('0'.toNat + n) else Char.ofNat ('a'.toNat + (n - 10))

/-- Model of n.toString(b) for a natural n: "0" for zero, otherwise the
base-b digits most significant first. -/
def toStringBase (b : ℕ) (n : ℕ) : String :=
  if n = 0 then "0" else ⟨(Nat.digits b n).reverse.map digitChar⟩

/-- Model of String.toUpperCase. -/
def toUpperString (s : String) : String := ⟨s.data.map Char.toUpper⟩

/-- Embedding of convert (BaseConverter.tsx, lines 29-54): parse the
input in the selected base; on NaN or a negative value set an error and
leave the results untouched; otherwise produce the binary, octal,
decimal and uppercased hexadecimal representations. -/
def convert (input : String) (fromBase : ℕ) : Except String (String × String × String × String) :=
  match parseIntM input fromBase with
  | none => Except.error "Invalid number"
  | some d =>
    if d < 0 then Except.error "Please enter a non-negative number"
    else Except.ok (toStringBase 2 d.toNat, toStringBase 8 d.toNat,
      toStringBase 10 d.toNat, toUpperString (toStringBase 16 d.toNat))

/-- Greedy match of \d*\.?\d* : digits, an optional dot, digits.
Returns the consumed characters and the rest.  Because the character
after this fragment in the pattern (x, y, or the end of group 3) is
never a digit or a dot, the greedy parse is equivalent to the
backtracking regex semantics at each starting position. -/
def takeNum (cs : List Char) : List Char × List Char :=
  let s1 := cs.span Char.isDigit
  match s1.2 with
  | '.' :: r2 =>
    let s2 := r2.span Char.isDigit
    (s1.1 ++ '.' :: s2.1, s2.2)
  | _ => (s1.1, s1.2)

/-- Group 1 of the equation regex: -?\d*\.?\d* . -/
def takeG1 (cs : List Char) : List Char × List Char :=
  match cs with
  | '-' :: rest =>
    let n := takeNum rest
    ('-' :: n.1, n.2)
  | _ => takeNum cs

/-- Group 2 of the equation regex: [+-]\s*\d*\.?\d* (fails when the
first character is not a sign). -/
def takeG2 (cs : List Char) : Option (List Char × List Char) :=
  match cs with
  | c :: rest =>
    if c = '+' ∨ c = '-' then
      let sp := rest.span Char.isWhitespace
      let n := takeNum sp.2
      some (c :: (sp.1 ++ n.1), n.2)
    else none
  | [] => none

/-- Group 3 of the equation regex: -?\d+\.?\d* (at least one digit
required). -/
def takeG3 (cs : List Char) : Option (List Char × List Char) :=
  let p : List Char × List Char :=
    match cs with
    | '-' :: rest => (['-'], rest)
    | _ => ([], cs)
  let s1 := p.2.span Char.isDigit
  if s1.1.isEmpty then none
  else
    match s1.2 with
    | '.' :: r2 =>
      let s2 := r2.span Char.isDigit
      some (p.1 ++ s1.1 ++ '.' :: s2.1, s2.2)
    | _ => some (p.1 ++ s1.1, s1.2)

/-- Attempt to match the equation pattern
(-?\d*\.?\d*)x\s*([+-]\s*\d*\.?\d*)y\s*=\s*(-?\d+\.?\d*)
of solveSystem (EquationSolver.tsx, line 73) at one starting position,
returning the three captured groups. -/
def matchEquationAt (cs : List Char) : Option (List Char × List Char × List Char) :=
  let g1 := takeG1 cs
  match g1.2 with
  | 'x' :: r2 =>
    let w1 := r2.span Char.isWhitespace
    match takeG2 w1.2 with
    | some g2 =>
      match g2.2 with
      | 'y' :: r5 =>
        let w2 := r5.span Char.isWhitespace
        match w2.2 with
        | '=' :: r7 =>
          let w3 := r7.span Char.isWhitespace
          match takeG3 w3.2 with
          | some g3 => some (g1.1, g2.1, g3.1)
          | none => none
        | _ => none
      | _ => none
    | none => none
  | _ => none

/-- Leftmost match of the equation pattern: try every starting
position from the left, as String.prototype.match does. -/
def matchEquation : List Char → Option (List Char × List Char × List Char)
  | [] => none
  | c :: rest =>
    match matchEquationAt (c :: rest) with
    | some g => some g
    | none => matchEquation rest

/-- Numeric value (base 10) of a most-significant-first digit run. -/
def digitsToNat (l : List Char) : ℕ :=
  l.foldl (fun a c => a * 10 + (c.toNat - '0'.toNat)) 0

/-- Model of JS parseFloat restricted to the shapes the equation regex
can capture (an optional sign, digits, an optional dot, digits): NaN
(none) exactly when there is no digit at all, otherwise the signed
decimal value. -/
def parseFloatQ (cs : List Char) : Option ℚ :=
  let p : ℚ × List Char :=
    match cs with
    | '-' :: rest => (-1, rest)
    | '+' :: rest => (1, rest)
    | _ => (1, cs)
  let s1 := p.2.span Char.isDigit
  let d2 : List Char :=
    match s1.2 with
    | '.' :: r2 => (r2.span Char.isDigit).1
    | _ => []
  if s1.1.isEmpty ∧ d2.isEmpty then none
  else some (p.1 * ((digitsToNat s1.1 : ℚ) + (digitsToNat d2 : ℚ) / 10 ^ d2.length))

/-- Embedding of parseEquation (EquationSolver.tsx, lines 72-81): match
the pattern, then read the three coefficients; group 1 empty or "+"
means 1, "-" means -1, anything else goes through parseFloat; group 2 is
stripped of whitespace before parseFloat.  A component is none when the
source computes NaN for it; the source does not reject NaN here. -/
def parseEquation (s : String) : Option (Option ℚ × Option ℚ × Option ℚ) :=
  match matchEquation s.data with
  | none => none
  | some (g1, g2, g3) =>
    let a : Option ℚ :=
      if g1 = [] ∨ g1 = ['+'] then some 1
      else if g1 = ['-'] then some (-1)
      else parseFloatQ g1
    let b : Option ℚ := parseFloatQ (g2.filter (fun c => !c.isWhitespace))
    let c : Option ℚ := parseFloatQ g3
    some (a, b, c)

/-- NaN-propagating multiplication on JS numbers embedded as Option ℚ
(none = NaN). -/
def nMul (x y : Option ℚ) : Option ℚ :=
  match x, y with
  | some a, some b => some (a * b)
  | _, _ => none

/-- NaN-propagating subtraction. -/
def nSub (x y : Option ℚ) : Option ℚ :=
  match x, y with
  | some a, some b => some (a - b)
  | _, _ => none

/-- NaN-propagating division.  A zero divisor also yields none; in
solveSystem this case is unreachable because a determinant equal to 0 is
rejected before dividing. -/
def nDiv (x y : Option ℚ) : Option ℚ :=
  match x, y with
  | some a, some b => if b = 0 then none else some (a / b)
  | _, _ => none

/-- Embedding of solveSystem (EquationSolver.tsx, lines 68-108): parse
both equations; if either fails to match, report the format error;
compute det = a1 b2 - a2 b1; if det is exactly 0, report the
no-unique-solution error; otherwise return Cramer quotients.  NaN
coefficients flow through as none and never trigger the det === 0 error
(NaN === 0 is false in JS). -/
def solveSystem (eq1 eq2 : String) : Except String (Option ℚ × Option ℚ) :=
  match parseEquation eq1, parseEquation eq2 with
  | some (a1, b1, c1), some (a2, b2, c2) =>
    let det := nSub (nMul a1 b2) (nMul a2 b1)
    if det = some 0 then Except.error "System has no unique solution (determinant = 0)"
    else
      Except.ok (nDiv (nSub (nMul c1 b2) (nMul c2 b1)) det,
                 nDiv (nSub (nMul a1 c2) (nMul a2 c1)) det)
  | _, _ => Except.error "Invalid equation format. Use \"ax + by = c\""

/-- A JS number as the sampler sees it: finite, one of the infinities,
or NaN. -/
inductive JsNum where
  | fin (q : ℚ)
  | posInf
  | negInf
  | nan
  deriving DecidableEq, Repr

/-- Modelled from the spec: generateGraphPoints of lib/mathEngine (the
Numeric Sampler), whose source file is not in the repository snapshot.
Spec section 4.2: evenly spaced points across [xStart, xEnd]; each
point's y is the Evaluator's value at that x, and null (none) when the
Evaluator errors or its value is non-finite.  The Evaluator itself is
abstracted as a function from x to an optional JS number (none = error). -/
def generateGraphPoints (f : ℚ → Option JsNum) (xStart xEnd : ℚ) (count : ℕ) :
    List (ℚ × Option ℚ) :=
  (List.range (count + 1)).map (fun i : ℕ =>
    let x := xStart + (xEnd - xStart) * (i : ℚ) / (count : ℚ)
    match f x with
    | some (JsNum.fin q) => (x, some q)
    | _ => (x, none))

/-- Condition kinds of a PiecewiseSegment (part_001, line 12). -/
inductive PCond where
  | lt | lte | gt | gte | eq | between
  deriving DecidableEq, Repr

/-- A piecewise segment as the sampler reads it: value1/value2 are the
parseFloat results of the bound fields (none models NaN, every
comparison with which is false in JS). -/
structure PSeg where
  expression : String
  cond : PCond
  value1 : Option ℚ
  value2 : Option ℚ
  deriving DecidableEq, Repr

/-- Embedding of evaluateCondition (part_001, lines 56-69). -/
def evaluateCondition (x : ℚ) (seg : PSeg) : Bool :=
  match seg.cond with
  | PCond.lt => match seg.value1 with | some v1 => decide (x < v1) | none => false
  | PCond.lte => match seg.value1 with | some v1 => decide (x ≤ v1) | none => false
  | PCond.gt => match seg.value1 with | some v1 => decide (v1 < x) | none => false
  | PCond.gte => match seg.value1 with | some v1 => decide (v1 ≤ x) | none => false
  | PCond.eq => match seg.value1 with | some v1 => decide (|x - v1| < 1 / 100) | none => false
  | PCond.between =>
    match seg.value1, seg.value2 with
    | some v1, some v2 => decide (v1 < x ∧ x < v2)
    | _, _ => false

/-- Model of String.prototype.trim as a list computation (the source
tests segment.expression.trim() for emptiness before sampling). -/
def jsTrim (s : String) : List Char :=
  ((s.data.dropWhile Char.isWhitespace).reverse.dropWhile Char.isWhitespace).reverse

/-- One segment's sample at one x (part_001, lines 80-88): null when
the expression is blank or the domain condition fails at x; otherwise
the first point of generateGraphPoints over the step-wide window around
x, nulled when missing, non-finite, or outside the y-window.  (In the
source a null y also passes the isFinite and range checks by coercing to
0 and is then stored as that same null.) -/
def samplePoint (evalOf : String → ℚ → Option JsNum) (yMin yMax : ℚ) (step x : ℚ)
    (seg : PSeg) : Option ℚ :=
  if jsTrim seg.expression ≠ [] ∧ evaluateCondition x seg then
    let pts := generateGraphPoints (evalOf seg.expression) (x - step / 2) (x + step / 2) 1
    match pts.head? with
    | some (_, some y) => if yMin ≤ y ∧ y ≤ yMax then some y else none
    | _ => none
  else none

/-- The sampling loop of graphData (part_001, lines 71-94): 501 sample
columns across [xMin, xMax], each carrying one optional value per
segment. -/
def graphData (evalOf : String → ℚ → Option JsNum) (segs : List PSeg)
    (xMin xMax yMin yMax : ℚ) : List (ℚ × List (Option ℚ)) :=
  let numPoints : ℕ := 500
  let step := (xMax - xMin) / numPoints
  (List.range (numPoints + 1)).map (fun i : ℕ =>
    let x := xMin + (i : ℚ) * step
    (x, segs.map (fun seg => samplePoint evalOf yMin yMax step x seg)))

/-- Result type of the Expression Evaluator (spec section 3), value side
restricted to the numeric payload this development needs. -/
inductive EvalResult where
  | ok (value : ℚ)
  | err (msg : String)
  deriving DecidableEq, Repr

/-- Variable lookup in the bindings passed to the Evaluator. -/
def lookupVar (b : List (String × ℚ)) (name : String) : Option ℚ :=
  (b.find? (fun p => p.1 = name)).map Prod.snd

/-- Number literal: digits with an optional fractional part. -/
def parseNumQ (cs : List Char) : Option (ℚ × List Char) :=
  let s1 := cs.span Char.isDigit
  if s1.1.isEmpty then none
  else
    match s1.2 with
    | '.' :: r2 =>
      let s2 := r2.span Char.isDigit
      some ((digitsToNat s1.1 : ℚ) + (digitsToNat s2.1 : ℚ) / 10 ^ s2.1.length, s2.2)
    | _ => some ((digitsToNat s1.1 : ℚ), s1.2)

/-- Identifier: a run of letters. -/
def parseIdent (cs : List Char) : Option (String × List Char) :=
  let s1 := cs.span Char.isAlpha
  if s1.1.isEmpty then none else some (⟨s1.1⟩, s1.2)

mutual

/-- Modelled from the spec: the expression grammar of evaluate in
lib/mathEngine (spec section 4.1), whose source file is not in the
repository snapshot, restricted to the arithmetic fragment: sums and
differences of terms. -/
def parseExpr (b : List (String × ℚ)) : ℕ → List Char → Except String (ℚ × List Char)
  | 0, _ => Except.error "Expression too deep"
  | fuel + 1, cs =>
    match parseTerm b fuel cs with
    | Except.ok (v, rest) => parseExprTail b fuel v rest
    | Except.error m => Except.error m

/-- Remaining + / - operators at the sum level. -/
def parseExprTail (b : List (String × ℚ)) : ℕ → ℚ → List Char → Except String (ℚ × List Char)
  | 0, _, _ => Except.error "Expression too deep"
  | fuel + 1, acc, cs =>
    match cs.dropWhile (fun c => c = ' ') with
    | '+' :: rest =>
      match parseTerm b fuel rest with
      | Except.ok (v, rest2) => parseExprTail b fuel (acc + v) rest2
      | Except.error m => Except.error m
    | '-' :: rest =>
      match parseTerm b fuel rest with
      | Except.ok (v, rest2) => parseExprTail b fuel (acc - v) rest2
      | Except.error m => Except.error m
    | other => Except.ok (acc, other)

/-- Products and quotients of factors; division by zero is a structured
error (spec section 4.1). -/
def parseTerm (b : List (String × ℚ)) : ℕ → List Char → Except String (ℚ × List Char)
  | 0, _ => Except.error "Expression too deep"
  | fuel + 1, cs =>
    match parseFactor b fuel cs with
    | Except.ok (v, rest) => parseTermTail b fuel v rest
    | Except.error m => Except.error m

/-- Remaining * and / operators at the product level. -/
def parseTermTail (b : List (String × ℚ)) : ℕ → ℚ → List Char → Except String (ℚ × List Char)
  | 0, _, _ => Except.error "Expression too deep"
  | fuel + 1, acc, cs =>
    match cs.dropWhile (fun c => c = ' ') with
    | '*' :: rest =>
      match parseFactor b fuel rest with
      | Except.ok (v, rest2) => parseTermTail b fuel (acc * v) rest2
      | Except.error m => Except.error m
    | '/' :: rest =>
      match parseFactor b fuel rest with
      | Except.ok (v, rest2) =>
        if v = 0 then Except.error "Division by zero"
        else parseTermTail b fuel (acc / v) rest2
      | Except.error m => Except.error m
    | other => Except.ok (acc, other)

/-- A factor: parenthesised expression, unary minus, number literal, or
identifier resolved through the bindings. -/
def parseFactor (b : List (String × ℚ)) : ℕ → List Char → Except String (ℚ × List Char)
  | 0, _ => Except.error "Expression too deep"
  | fuel + 1, cs =>
    match cs.dropWhile (fun c => c = ' ') with
    | '(' :: rest =>
      match parseExpr b fuel rest with
      | Except.ok (v, rest2) =>
        match rest2.dropWhile (fun c => c = ' ') with
        | ')' :: rest3 => Except.ok (v, rest3)
        | _ => Except.error "Expected closing parenthesis"
      | Except.error m => Except.error m
    | '-' :: rest =>
      match parseFactor b fuel rest with
      | Except.ok (v, rest2) => Except.ok (-v, rest2)
      | Except.error m => Except.error m
    | other =>
      match parseNumQ other with
      | some (v, rest) => Except.ok (v, rest)
      | none =>
        match parseIdent other with
        | some (name, rest) =>
          match lookupVar b name with
          | some v => Except.ok (v, rest)
          | none => Except.error ("Unknown identifier " ++ name)
        | none => Except.error "Unexpected character"

end

/-- Modelled from the spec: evaluate(expression, bindings) of
lib/mathEngine (spec sections 4.1 and 8), whose source file is not in
the repository snapshot.  A pure function of its two arguments: parse
and evaluate the arithmetic expression under the bindings, returning a
value or a structured error, with no other inputs and no side effects. -/
def evaluate (e : String) (b : List (String × ℚ)) : EvalResult :=
  if e.trim = "" then EvalResult.err "Empty expression"
  else
    match parseExpr b (4 * e.length + 4) e.data with
    | Except.ok (v, rest) =>
      if rest.dropWhile (fun c => c = ' ') = [] then EvalResult.ok v
      else EvalResult.err "Unexpected trailing input"
    | Except.error m => EvalResult.err m

/-- Two successive calls of the Evaluator on the same input. -/
def evaluateTwice (e : String) (b : List (String × ℚ)) : EvalResult × EvalResult :=
  (evaluate e b, evaluate e b)

/-- A call through an explicit session log: the result is computed from
(expression, bindings) alone and the log records the call. -/
def evalSession (history : List (String × List (String × ℚ))) (e : String)
    (b : List (String × ℚ)) : EvalResult × List (String × List (String × ℚ)) :=
  (evaluate e b, history ++ [(e, b)])

/-- An IEEE-754 binary64 value in sign-magnitude form with a biased
exponent: the value is (if neg then -m else m) * 2^(eb - 1100), with m
normalized to [2^52, 2^53) (or m = 0, recorded as neg = false,
eb = 1100).  All arithmetic below rounds to nearest, ties to even,
which is the JS number semantics of the arithmetic in findRoots; only
natural-number operations are used so the whole computation evaluates
inside the kernel.  The bias 1100 keeps every exponent positive for the
value ranges this computation visits. -/
structure F64 where
  neg : Bool
  m : ℕ
  eb : ℕ
  deriving DecidableEq, Repr

/-- Floor base-2 logarithm by binary descent over the exponent bits
(the standard library log2 does not reduce inside the kernel; this
version needs only ten division steps for the sizes reached here). -/
def natLog2 (n : ℕ) : ℕ :=
  (([256, 256, 128, 64, 32, 16, 8, 4, 2, 1] : List ℕ).foldl
    (fun acc s => if 2 ^ s ≤ acc.1 then (acc.1 / 2 ^ s, acc.2 + s) else acc)
    (n, 0)).2

/-- Round the positive rational a / b (a, b nonzero) to a 53-bit
mantissa and biased binary exponent, nearest, ties to even. -/
def rndCore (a b : ℕ) : ℕ × ℕ :=
  let blg := (1100 + natLog2 a) - natLog2 b
  let cmp : Bool :=
    if 1100 ≤ blg then decide (b * 2 ^ (blg - 1100) ≤ a)
    else decide (b ≤ a * 2 ^ (1100 - blg))
  let bE := if cmp then blg else blg - 1
  let be := bE - 52
  let nd : ℕ × ℕ := if be ≤ 1100 then (a * 2 ^ (1100 - be), b) else (a, b * 2 ^ (be - 1100))
  let q := nd.1 / nd.2
  let r := nd.1 % nd.2
  let m := if nd.2 < 2 * r then q + 1 else if 2 * r < nd.2 then q else q + q % 2
  if m = 2 ^ 53 then (2 ^ 52, be + 1) else (m, be)

/-- The binary64 nearest to the signed rational (-1)^neg * a / b. -/
def mkF (neg : Bool) (a b : ℕ) : F64 :=
  if a = 0 ∨ b = 0 then ⟨false, 0, 1100⟩
  else
    let p := rndCore a b
    ⟨neg, p.1, p.2⟩

/-- The binary64 nearest to (-1)^neg * (a / b) * 2^(ebs - 1100). -/
def mkFB (neg : Bool) (a b ebs : ℕ) : F64 :=
  if 1100 ≤ ebs then mkF neg (a * 2 ^ (ebs - 1100)) b
  else mkF neg a (b * 2 ^ (1100 - ebs))

/-- Negation (exact). -/
def fneg (x : F64) : F64 := if x.m = 0 then x else ⟨!x.neg, x.m, x.eb⟩

/-- Correctly rounded addition, by aligned sign-magnitude arithmetic. -/
def fadd (x y : F64) : F64 :=
  let e := if x.eb ≤ y.eb then x.eb else y.eb
  let a := x.m * 2 ^ (x.eb - e)
  let b := y.m * 2 ^ (y.eb - e)
  if x.neg = y.neg then mkFB x.neg (a + b) 1 e
  else if b ≤ a then mkFB x.neg (a - b) 1 e
  else mkFB y.neg (b - a) 1 e

/-- Correctly rounded subtraction. -/
def fsub (x y : F64) : F64 := fadd x (fneg y)

/-- Correctly rounded multiplication. -/
def fmul (x y : F64) : F64 := mkFB (x.neg != y.neg) (x.m * y.m) 1 (x.eb + y.eb - 1100)

/-- Correctly rounded division. -/
def fdiv (x y : F64) : F64 := mkFB (x.neg != y.neg) x.m y.m (x.eb + 1100 - y.eb)

/-- Squaring with a single rounding (exact square, then rounded). -/
def fsq (x : F64) : F64 := mkFB false (x.m * x.m) 1 (x.eb + x.eb - 1100)

/-- Cubing with a single rounding (exact cube, then rounded): the model
of the evaluator's pow on the exponents used here. -/
def fcube (x : F64) : F64 := mkFB x.neg (x.m * x.m * x.m) 1 (3 * x.eb - 2200)

/-- Math.abs. -/
def fabs (x : F64) : F64 := ⟨false, x.m, x.eb⟩

/-- Magnitude comparison |x| < |y|. -/
def magLtB (x y : F64) : Bool :=
  if x.eb ≤ y.eb then decide (x.m < y.m * 2 ^ (y.eb - x.eb))
  else decide (x.m * 2 ^ (x.eb - y.eb) < y.m)

/-- Magnitude comparison |x| <= |y|. -/
def magLeB (x y : F64) : Bool :=
  if x.eb ≤ y.eb then decide (x.m ≤ y.m * 2 ^ (y.eb - x.eb))
  else decide (x.m * 2 ^ (x.eb - y.eb) ≤ y.m)

/-- Exact comparison x < y of binary64 values. -/
def fltB (x y : F64) : Bool :=
  match x.neg, y.neg with
  | false, false => magLtB x y
  | true, true => magLtB y x
  | true, false => true
  | false, true => false

/-- Exact comparison x <= y of binary64 values. -/
def fleB (x y : F64) : Bool :=
  match x.neg, y.neg with
  | false, false => magLeB x y
  | true, true => magLeB y x
  | true, false => true
  | false, true => false

/-- The double nearest a (nonnegative) integer constant of the
polynomial; exact for the constants used here. -/
def f64ofNat (n : ℕ) : F64 := mkF false n 1

/-- The double written 1e-15 in the source (the derivative threshold). -/
def eps15F : F64 := mkF false 1 (10 ^ 15)

/-- The double written 1e-10 in the source (the step tolerance). -/
def tolF : F64 := mkF false 1 (10 ^ 10)

/-- The double written 0.0001 in the source (dedup and residual
tolerance). -/
def tol4F : F64 := mkF false 1 (10 ^ 4)

/-- The compiled polynomial x^3 - 6x^2 + 11x - 6 evaluated in binary64
in source order: ((x^3 - 6*x^2) + 11*x) - 6, one rounding per
operation. -/
def polyF (x : F64) : F64 :=
  fsub (fadd (fsub (fcube x) (fmul (f64ofNat 6) (fsq x))) (fmul (f64ofNat 11) x))
    (f64ofNat 6)

/-- The compiled symbolic derivative 3 * x ^ 2 - 12 * x + 11 evaluated
in binary64 in left-to-right order: (3*x^2 - 12*x) + 11. -/
def dpolyF (x : F64) : F64 :=
  fadd (fsub (fmul (f64ofNat 3) (fsq x)) (fmul (f64ofNat 12) x)) (f64ofNat 11)

/-- The inner Newton loop of findRoots (EquationSolver.tsx, lines
124-143) under binary64 arithmetic, for the fixed cubic. -/
def newtonIterF (roots : List F64) : Nat → F64 → List F64
  | 0, _ => roots
  | n + 1, x =>
    let fx := polyF x
    let dfx := dpolyF x
    if fltB (fabs dfx) eps15F then roots
    else
      let xNew := fsub x (fdiv fx dfx)
      if fltB (fabs (fsub xNew x)) tolF then
        if (roots.all fun r => !fltB (fabs (fsub r xNew)) tol4F) &&
            fltB (fabs (polyF xNew)) tol4F then
          roots ++ [xNew]
        else roots
      else newtonIterF roots n xNew

/-- The 41 seeds -10, -9.5, ..., 10 as (exact) doubles. -/
def seedsF : List F64 :=
  (List.range 41).map (fun i : ℕ =>
    if i < 20 then mkF true (20 - i) 2 else mkF false (i - 20) 2)

/-- findRoots (EquationSolver.tsx, lines 110-156) on the polynomial
x^3 - 6x^2 + 11x - 6, under binary64 arithmetic: scan all seeds, then
sort the accepted roots ascending. -/
def findRootsF : List F64 :=
  List.insertionSort (fun a b => fleB a b = true)
    (seedsF.foldl (fun rs s => newtonIterF rs 100 s) [])

/-- The exact rational value of a binary64. -/
def F64.toQ (x : F64) : ℚ :=
  (if x.neg then -(x.m : ℚ) else (x.m : ℚ)) *
    (if 1100 ≤ x.eb then 2 ^ (x.eb - 1100) else 1 / 2 ^ (1100 - x.eb))

/-- Outcome of the polynomial-roots action as the caller renders it:
either a list of accepted roots (an empty list is displayed as a
"No real roots found in range [-10, 10]" message, not as an error) or an
error surfaced from compiling the expression. -/
inductive PolyOutcome where
  | roots (rs : List ℚ)
  | err (msg : String)
  deriving DecidableEq, Repr

/-- In any field of characteristic zero, (-b + s)/(2a) is a root of
a x^2 + b x + c whenever s^2 equals the discriminant b^2 - 4ac and a is
nonzero. -/
theorem quadRootOfSqDisc {K : Type} [Field K] [CharZero K] (a b c s : K) (ha : a ≠ 0)
    (hs : s ^ 2 = b * b - 4 * a * c) :
    a * ((-b + s) / (2 * a)) ^ 2 + b * ((-b + s) / (2 * a)) + c = 0 := by
  have h2 : (2 : K) ≠ 0 := two_ne_zero
  field_simp
  linear_combination 2 * a ^ 2 * hs

/-- A complex number x + i y is a root of a X^2 + b X + c (real
coefficients) as soon as its real and imaginary parts satisfy the two
component equations. -/
theorem quadComplexRoot (a b c x y : ℝ)
    (hre : a * (x * x - y * y) + b * x + c = 0)
    (him : a * (2 * x * y) + b * y = 0) :
    (a : ℂ) * ((x : ℂ) + Complex.I * (y : ℂ)) ^ 2 +
      (b : ℂ) * ((x : ℂ) + Complex.I * (y : ℂ)) + (c : ℂ) = 0 := by
  apply Complex.ext <;>
    simp [pow_two, Complex.mul_re, Complex.mul_im, Complex.add_re, Complex.add_im] <;>
    linarith [hre, him]

/-- C1: for all rational coefficients, the quadratic classifier computes
the discriminant d = b^2 - 4ac and returns: for d > 0 the two real roots
(-b + sqrt d)/(2a) and (-b - sqrt d)/(2a), each of which satisfies the
quadratic; for d = 0 the one repeated real root -b/(2a), which satisfies
the quadratic; for d < 0 a complex-conjugate pair with real part -b/(2a)
and imaginary-part magnitude sqrt(-d)/(2a), both members of which
satisfy the quadratic over the complex numbers.  For a = 0 it returns an
explicit error and no roots. -/
theorem solveQuadratic_correct (a b c : ℚ) :
    (a = 0 → solveQuadratic a b c =
      QuadResult.err "Coefficient \"a\" cannot be zero for quadratic equation") ∧
    (a ≠ 0 → 0 < b * b - 4 * a * c → ∃ x1 x2 : RadQ,
      solveQuadratic a b c = QuadResult.twoReal (b * b - 4 * a * c) x1 x2 ∧
      (x1.p : ℝ) + x1.q * Real.sqrt x1.r =
        (-(b : ℝ) + Real.sqrt ((b : ℝ) * b - 4 * a * c)) / (2 * a) ∧
      (x2.p : ℝ) + x2.q * Real.sqrt x2.r =
        (-(b : ℝ) - Real.sqrt ((b : ℝ) * b - 4 * a * c)) / (2 * a) ∧
      (a : ℝ) * ((x1.p : ℝ) + x1.q * Real.sqrt x1.r) ^ 2 +
        b * ((x1.p : ℝ) + x1.q * Real.sqrt x1.r) + c = 0 ∧
      (a : ℝ) * ((x2.p : ℝ) + x2.q * Real.sqrt x2.r) ^ 2 +
        b * ((x2.p : ℝ) + x2.q * Real.sqrt x2.r) + c = 0) ∧
    (a ≠ 0 → b * b - 4 * a * c = 0 →
      solveQuadratic a b c =
        QuadResult.oneRepeated (b * b - 4 * a * c) (-b / (2 * a)) ∧
      (a : ℝ) * ((-b / (2 * a) : ℚ) : ℝ) ^ 2 + b * ((-b / (2 * a) : ℚ) : ℝ) + c = 0) ∧
    (a ≠ 0 → b * b - 4 * a * c < 0 → ∃ im : RadQ,
      solveQuadratic a b c =
        QuadResult.complexPair (b * b - 4 * a * c) (-b / (2 * a)) im ∧
      (im.p : ℝ) + im.q * Real.sqrt im.r =
        Real.sqrt (-((b : ℝ) * b - 4 * a * c)) / (2 * a) ∧
      (a : ℂ) * (((-b / (2 * a) : ℚ) : ℂ) +
          Complex.I * (((im.p : ℝ) + im.q * Real.sqrt im.r : ℝ) : ℂ)) ^ 2 +
        b * (((-b / (2 * a) : ℚ) : ℂ) +
          Complex.I * (((im.p : ℝ) + im.q * Real.sqrt im.r : ℝ) : ℂ)) + c = 0 ∧
      (a : ℂ) * (((-b / (2 * a) : ℚ) : ℂ) -
          Complex.I * (((im.p : ℝ) + im.q * Real.sqrt im.r : ℝ) : ℂ)) ^ 2 +
        b * (((-b / (2 * a) : ℚ) : ℂ) -
          Complex.I * (((im.p : ℝ) + im.q * Real.sqrt im.r : ℝ) : ℂ)) + c = 0) := by
  have haR : a ≠ 0 → ((a : ℝ) ≠ 0) := fun h => by exact_mod_cast h
  refine ⟨fun h0 => by simp [solveQuadratic, h0], ?_, ?_, ?_⟩
  · intro ha hd
    refine ⟨⟨-b / (2 * a), 1 / (2 * a), b * b - 4 * a * c⟩,
            ⟨-b / (2 * a), -(1 / (2 * a)), b * b - 4 * a * c⟩, ?_, ?_, ?_, ?_, ?_⟩
    · simp [solveQuadratic, ha, hd]
    · push_cast
      field_simp
      ring
    · push_cast
      field_simp
      ring
    · have hs : Real.sqrt ((b : ℝ) * b - 4 * a * c) ^ 2 = (b : ℝ) * b - 4 * a * c := by
        apply Real.sq_sqrt
        have : (0 : ℝ) < (b : ℝ) * b - 4 * a * c := by exact_mod_cast hd
        linarith
      have h1 := quadRootOfSqDisc (a : ℝ) b c (Real.sqrt ((b : ℝ) * b - 4 * a * c))
        (haR ha) hs
      have hval : ((-b / (2 * a) : ℚ) : ℝ) +
          ((1 / (2 * a) : ℚ) : ℝ) * Real.sqrt ((b * b - 4 * a * c : ℚ) : ℝ) =
          (-(b : ℝ) + Real.sqrt ((b : ℝ) * b - 4 * a * c)) / (2 * a) := by
        push_cast
        field_simp
        ring
      simp only [hval]
      convert h1 using 2
    · have hs : (-Real.sqrt ((b : ℝ) * b - 4 * a * c)) ^ 2 =
          (b : ℝ) * b - 4 * a * c := by
        rw [neg_sq]
        apply Real.sq_sqrt
        have : (0 : ℝ) < (b : ℝ) * b - 4 * a * c := by exact_mod_cast hd
        linarith
      have h2 := quadRootOfSqDisc (a : ℝ) b c (-Real.sqrt ((b : ℝ) * b - 4 * a * c))
        (haR ha) hs
      have hval : ((-b / (2 * a) : ℚ) : ℝ) +
          ((-(1 / (2 * a)) : ℚ) : ℝ) * Real.sqrt ((b * b - 4 * a * c : ℚ) : ℝ) =
          (-(b : ℝ) + -Real.sqrt ((b : ℝ) * b - 4 * a * c)) / (2 * a) := by
        push_cast
        field_simp
        ring
      simp only [hval]
      convert h2 using 2
  · intro ha hd0
    refine ⟨by simp [solveQuadratic, ha, hd0], ?_⟩
    have hQ : a * (-b / (2 * a)) ^ 2 + b * (-b / (2 * a)) + c = 0 := by
      field_simp
      linear_combination -2 * a ^ 2 * hd0
    exact_mod_cast hQ
  · intro ha hdneg
    refine ⟨⟨0, 1 / (2 * a), -(b * b - 4 * a * c)⟩, ?_, ?_, ?_, ?_⟩
    · simp [solveQuadratic, ha, not_lt.mpr hdneg.le, hdneg.ne]
    · push_cast
      field_simp
    all_goals
      have hdR : ((b : ℝ) * b - 4 * a * c) < 0 := by
        have : ((b * b - 4 * a * c : ℚ) : ℝ) < 0 := by exact_mod_cast hdneg
        push_cast at this
        linarith
      have ht2 : Real.sqrt (-((b : ℝ) * b - 4 * a * c)) ^ 2 =
          -((b : ℝ) * b - 4 * a * c) := Real.sq_sqrt (by linarith)
      have ht2b : Real.sqrt (4 * (a : ℝ) * c - (b : ℝ) * b) ^ 2 =
          4 * (a : ℝ) * c - (b : ℝ) * b := Real.sq_sqrt (by linarith)
      have hvim : (((0 : ℚ) : ℝ)) + ((1 / (2 * a) : ℚ) : ℝ) *
          Real.sqrt ((-(b * b - 4 * a * c) : ℚ) : ℝ) =
          Real.sqrt (-((b : ℝ) * b - 4 * a * c)) / (2 * a) := by
        push_cast
        field_simp
      have hre : (a : ℝ) * (((-b / (2 * a) : ℚ) : ℝ) * ((-b / (2 * a) : ℚ) : ℝ) -
            Real.sqrt (-((b : ℝ) * b - 4 * a * c)) / (2 * a) *
              (Real.sqrt (-((b : ℝ) * b - 4 * a * c)) / (2 * a))) +
          (b : ℝ) * ((-b / (2 * a) : ℚ) : ℝ) + (c : ℝ) = 0 := by
        push_cast
        field_simp
        linear_combination (-2 : ℝ) * (a : ℝ) ^ 2 * ht2b
      have him : (a : ℝ) * (2 * ((-b / (2 * a) : ℚ) : ℝ) *
            (Real.sqrt (-((b : ℝ) * b - 4 * a * c)) / (2 * a))) +
          (b : ℝ) * (Real.sqrt (-((b : ℝ) * b - 4 * a * c)) / (2 * a)) = 0 := by
        push_cast
        field_simp
        ring
      have hreNeg : (a : ℝ) * (((-b / (2 * a) : ℚ) : ℝ) * ((-b / (2 * a) : ℚ) : ℝ) -
            -(Real.sqrt (-((b : ℝ) * b - 4 * a * c)) / (2 * a)) *
              -(Real.sqrt (-((b : ℝ) * b - 4 * a * c)) / (2 * a))) +
          (b : ℝ) * ((-b / (2 * a) : ℚ) : ℝ) + (c : ℝ) = 0 := by
        have : -(Real.sqrt (-((b : ℝ) * b - 4 * a * c)) / (2 * a)) *
            -(Real.sqrt (-((b : ℝ) * b - 4 * a * c)) / (2 * a)) =
            Real.sqrt (-((b : ℝ) * b - 4 * a * c)) / (2 * a) *
              (Real.sqrt (-((b : ℝ) * b - 4 * a * c)) / (2 * a)) := by ring
        rw [this]
        exact hre
      have himNeg : (a : ℝ) * (2 * ((-b / (2 * a) : ℚ) : ℝ) *
            -(Real.sqrt (-((b : ℝ) * b - 4 * a * c)) / (2 * a))) +
          (b : ℝ) * -(Real.sqrt (-((b : ℝ) * b - 4 * a * c)) / (2 * a)) = 0 := by
        push_cast
        field_simp
        ring
      rw [hvim]
    · have h := quadComplexRoot a b c ((-b / (2 * a) : ℚ) : ℝ)
        (Real.sqrt (-((b : ℝ) * b - 4 * a * c)) / (2 * a)) hre him
      rw [show (((-b / (2 * a) : ℚ) : ℝ) : ℂ) = ((-b / (2 * a) : ℚ) : ℂ) by push_cast; ring] at h
      rw [show ((a : ℝ) : ℂ) = (a : ℂ) by push_cast; ring,
          show ((b : ℝ) : ℂ) = (b : ℂ) by push_cast; ring,
          show ((c : ℝ) : ℂ) = (c : ℂ) by push_cast; ring] at h
      exact h
    · have h := quadComplexRoot a b c ((-b / (2 * a) : ℚ) : ℝ)
        (-(Real.sqrt (-((b : ℝ) * b - 4 * a * c)) / (2 * a))) hreNeg himNeg
      rw [show (((-b / (2 * a) : ℚ) : ℝ) : ℂ) = ((-b / (2 * a) : ℚ) : ℂ) by push_cast; ring] at h
      rw [show ((a : ℝ) : ℂ) = (a : ℂ) by push_cast; ring,
          show ((b : ℝ) : ℂ) = (b : ℂ) by push_cast; ring,
          show ((c : ℝ) : ℂ) = (c : ℂ) by push_cast; ring] at h
      rw [show (((-(Real.sqrt (-((b : ℝ) * b - 4 * a * c)) / (2 * a)) : ℝ)) : ℂ) =
          -((Real.sqrt (-((b : ℝ) * b - 4 * a * c)) / (2 * (a : ℝ)) : ℝ) : ℂ) by push_cast; ring,
          mul_neg, ← sub_eq_add_neg] at h
      exact h

/-- Witness for C1 at the spec scenario a = 1, b = -5, c = 6
(discriminant 1 > 0): the classifier takes the two-real-roots branch and
both returned root values satisfy the quadratic. -/
theorem solveQuadratic_correct_witness :
    ∃ x1 x2 : RadQ,
      solveQuadratic 1 (-5) 6 = QuadResult.twoReal ((-5) * (-5) - 4 * 1 * 6) x1 x2 ∧
      (x1.p : ℝ) + x1.q * Real.sqrt x1.r =
        (-((-5 : ℚ) : ℝ) + Real.sqrt (((-5 : ℚ) : ℝ) * (-5 : ℚ) - 4 * (1 : ℚ) * (6 : ℚ))) /
          (2 * (1 : ℚ)) ∧
      (x2.p : ℝ) + x2.q * Real.sqrt x2.r =
        (-((-5 : ℚ) : ℝ) - Real.sqrt (((-5 : ℚ) : ℝ) * (-5 : ℚ) - 4 * (1 : ℚ) * (6 : ℚ))) /
          (2 * (1 : ℚ)) ∧
      ((1 : ℚ) : ℝ) * ((x1.p : ℝ) + x1.q * Real.sqrt x1.r) ^ 2 +
        ((-5 : ℚ) : ℝ) * ((x1.p : ℝ) + x1.q * Real.sqrt x1.r) + ((6 : ℚ) : ℝ) = 0 ∧
      ((1 : ℚ) : ℝ) * ((x2.p : ℝ) + x2.q * Real.sqrt x2.r) ^ 2 +
        ((-5 : ℚ) : ℝ) * ((x2.p : ℝ) + x2.q * Real.sqrt x2.r) + ((6 : ℚ) : ℝ) = 0 :=
  (solveQuadratic_correct 1 (-5) 6).2.1 (by norm_num) (by norm_num)

/-- C2: for every coefficient tuple with nonzero determinant
D = a1 b2 - a2 b1, the 2x2 solver returns x = (c1 b2 - c2 b1)/D and
y = (a1 c2 - a2 c1)/D, and this pair satisfies both equations
a1 x + b1 y = c1 and a2 x + b2 y = c2 (exactly, over the rationals). -/
theorem solveSystemCoeffs_correct (a1 b1 c1 a2 b2 c2 : ℚ)
    (hD : a1 * b2 - a2 * b1 ≠ 0) :
    solveSystemCoeffs a1 b1 c1 a2 b2 c2 =
      Except.ok ((c1 * b2 - c2 * b1) / (a1 * b2 - a2 * b1),
                 (a1 * c2 - a2 * c1) / (a1 * b2 - a2 * b1)) ∧
    a1 * ((c1 * b2 - c2 * b1) / (a1 * b2 - a2 * b1)) +
      b1 * ((a1 * c2 - a2 * c1) / (a1 * b2 - a2 * b1)) = c1 ∧
    a2 * ((c1 * b2 - c2 * b1) / (a1 * b2 - a2 * b1)) +
      b2 * ((a1 * c2 - a2 * c1) / (a1 * b2 - a2 * b1)) = c2 := by
  refine ⟨?_, ?_, ?_⟩
  · simp only [solveSystemCoeffs, if_neg hD]
  · field_simp
    ring
  · field_simp
    ring

/-- Witness for C2 at the spec scenario (2x + 3y = 8, x - y = 1):
the solver returns the pair (11/5, 6/5) = (2.2, 1.2) and it satisfies
both equations. -/
theorem solveSystemCoeffs_correct_witness :
    solveSystemCoeffs 2 3 8 1 (-1) 1 =
      Except.ok ((8 * (-1) - 1 * 3) / (2 * (-1) - 1 * 3),
                 (2 * 1 - 1 * 8) / (2 * (-1) - 1 * 3)) ∧
    2 * ((8 * (-1) - 1 * 3) / (2 * (-1) - 1 * 3) : ℚ) +
      3 * ((2 * 1 - 1 * 8) / (2 * (-1) - 1 * 3)) = 8 ∧
    1 * ((8 * (-1) - 1 * 3) / (2 * (-1) - 1 * 3) : ℚ) +
      (-1) * ((2 * 1 - 1 * 8) / (2 * (-1) - 1 * 3)) = 1 :=
  solveSystemCoeffs_correct 2 3 8 1 (-1) 1 (by norm_num)

/-- Case analysis of one seed of the Newton loop: the accumulator either
comes back unchanged, or exactly one converged candidate that passed the
dedup and residual checks is appended to it. -/
theorem newtonIter_result (f df : ℚ → ℚ) (roots : List ℚ) :
    ∀ n x, newtonIter f df roots n x = roots ∨
      ∃ xp, ¬|df xp| < derivThreshold ∧
        |xp - f xp / df xp - xp| < newtonTolerance ∧
        (∀ r ∈ roots, ¬|r - (xp - f xp / df xp)| < rootTolerance) ∧
        |f (xp - f xp / df xp)| < rootTolerance ∧
        newtonIter f df roots n x = roots ++ [xp - f xp / df xp] := by
  intro n
  induction n with
  | zero => intro x; exact Or.inl rfl
  | succ n ih =>
    intro x
    by_cases h1 : |df x| < derivThreshold
    · left
      simp only [newtonIter]
      rw [if_pos h1]
    · by_cases h2 : |x - f x / df x - x| < newtonTolerance
      · by_cases h3 : (∀ r ∈ roots, ¬|r - (x - f x / df x)| < rootTolerance) ∧
            |f (x - f x / df x)| < rootTolerance
        · right
          refine ⟨x, h1, h2, h3.1, h3.2, ?_⟩
          simp only [newtonIter]
          rw [if_neg h1, if_pos h2, if_pos h3]
        · left
          simp only [newtonIter]
          rw [if_neg h1, if_pos h2, if_neg h3]
      · have heq : newtonIter f df roots (n + 1) x =
            newtonIter f df roots n (x - f x / df x) := by
          simp only [newtonIter]
          rw [if_neg h1, if_neg h2]
        rw [heq]
        exact ih (x - f x / df x)

/-- The step counter never exceeds its fuel. -/
theorem newtonSteps_le (f df : ℚ → ℚ) : ∀ n x, newtonSteps f df n x ≤ n := by
  intro n
  induction n with
  | zero => intro x; exact Nat.le_refl 0
  | succ n ih =>
    intro x
    by_cases h1 : |df x| < derivThreshold
    · simp only [newtonSteps]
      rw [if_pos h1]
      exact Nat.succ_le_succ (Nat.zero_le n)
    · by_cases h2 : |x - f x / df x - x| < newtonTolerance
      · simp only [newtonSteps]
        rw [if_neg h1, if_pos h2]
        exact Nat.succ_le_succ (Nat.zero_le n)
      · have heq : newtonSteps f df (n + 1) x =
            1 + newtonSteps f df n (x - f x / df x) := by
          simp only [newtonSteps]
          rw [if_neg h1, if_neg h2]
        rw [heq, Nat.add_comm]
        exact Nat.succ_le_succ (ih _)

/-- The residual bound and mutual separation of accepted roots are
preserved by running one more seed. -/
theorem newtonIter_preserves (f df : ℚ → ℚ) (roots : List ℚ) (n : Nat) (x : ℚ)
    (hres : ∀ r ∈ roots, |f r| < rootTolerance)
    (hsep : List.Pairwise (fun r s => rootTolerance ≤ |r - s|) roots) :
    (∀ r ∈ newtonIter f df roots n x, |f r| < rootTolerance) ∧
    List.Pairwise (fun r s => rootTolerance ≤ |r - s|) (newtonIter f df roots n x) := by
  rcases newtonIter_result f df roots n x with h | ⟨xp, _, _, hnew, hfres, h⟩
  · rw [h]
    exact ⟨hres, hsep⟩
  · rw [h]
    constructor
    · intro r hr
      rcases List.mem_append.mp hr with hr | hr
      · exact hres r hr
      · rw [List.mem_singleton.mp hr]
        exact hfres
    · rw [List.pairwise_append]
      refine ⟨hsep, List.pairwise_singleton _ _, ?_⟩
      intro r hr c hc
      rw [List.mem_singleton.mp hc]
      exact le_of_not_lt (hnew r hr)

/-- The residual bound and mutual separation are preserved by the whole
seed scan. -/
theorem foldlNewton_preserves (f df : ℚ → ℚ) :
    ∀ (l : List ℚ) (roots : List ℚ),
      (∀ r ∈ roots, |f r| < rootTolerance) →
      List.Pairwise (fun r s => rootTolerance ≤ |r - s|) roots →
      (∀ r ∈ l.foldl (fun rs s => newtonIter f df rs newtonMaxIterations s) roots,
        |f r| < rootTolerance) ∧
      List.Pairwise (fun r s => rootTolerance ≤ |r - s|)
        (l.foldl (fun rs s => newtonIter f df rs newtonMaxIterations s) roots) := by
  intro l
  induction l with
  | nil => exact fun roots h1 h2 => ⟨h1, h2⟩
  | cons a l ih =>
    intro roots h1 h2
    have h := newtonIter_preserves f df roots newtonMaxIterations a h1 h2
    exact ih _ h.1 h.2

/-- C3: for every seed, the Newton loop runs at most newtonMaxIterations
iterations of x := x - f(x)/df(x); a step with |df(x)| below
derivThreshold abandons the seed with the accumulator unchanged; a step
whose new iterate is within newtonTolerance of the previous one stops
and offers exactly that iterate as the candidate (appended or not); a
step that neither aborts nor converges recurses on the new iterate; and
the only way a seed changes the accumulator is by appending one such
converged candidate. -/
theorem findRoots_iteration_policy (f df : ℚ → ℚ) (roots : List ℚ) (x0 : ℚ) :
    (∀ (x : ℚ) (n : Nat), |df x| < derivThreshold →
      newtonIter f df roots (n + 1) x = roots) ∧
    (∀ (x : ℚ) (n : Nat), ¬|df x| < derivThreshold →
      ¬|x - f x / df x - x| < newtonTolerance →
      newtonIter f df roots (n + 1) x = newtonIter f df roots n (x - f x / df x)) ∧
    (∀ (x : ℚ) (n : Nat), ¬|df x| < derivThreshold →
      |x - f x / df x - x| < newtonTolerance →
      newtonIter f df roots (n + 1) x = roots ∨
        newtonIter f df roots (n + 1) x = roots ++ [x - f x / df x]) ∧
    newtonSteps f df newtonMaxIterations x0 ≤ newtonMaxIterations ∧
    (newtonIter f df roots newtonMaxIterations x0 = roots ∨
      ∃ xp, ¬|df xp| < derivThreshold ∧
        |xp - f xp / df xp - xp| < newtonTolerance ∧
        newtonIter f df roots newtonMaxIterations x0 = roots ++ [xp - f xp / df xp]) := by
  refine ⟨?_, ?_, ?_, newtonSteps_le f df _ x0, ?_⟩
  · intro x n h1
    simp only [newtonIter]
    rw [if_pos h1]
  · intro x n h1 h2
    simp only [newtonIter]
    rw [if_neg h1, if_neg h2]
  · intro x n h1 h2
    by_cases h3 : (∀ r ∈ roots, ¬|r - (x - f x / df x)| < rootTolerance) ∧
        |f (x - f x / df x)| < rootTolerance
    · right
      simp only [newtonIter]
      rw [if_neg h1, if_pos h2, if_pos h3]
    · left
      simp only [newtonIter]
      rw [if_neg h1, if_pos h2, if_neg h3]
  · rcases newtonIter_result f df roots newtonMaxIterations x0 with h | ⟨xp, ha, hb, _, _, h⟩
    · exact Or.inl h
    · exact Or.inr ⟨xp, ha, hb, h⟩

/-- Witness for C3 on the identity function with derivative 1 (one
non-converged step from x = 5, one aborted seed with derivative 0, and
the iteration-count bound). -/
theorem findRoots_iteration_policy_witness :
    newtonIter (fun x => x) (fun _ => 1) [] 2 5 =
      newtonIter (fun x => x) (fun _ => 1) [] 1 (5 - 5 / 1) ∧
    newtonIter (fun x => x) (fun _ => (0 : ℚ)) [] 2 5 = [] ∧
    newtonSteps (fun x => x) (fun _ => 1) newtonMaxIterations 5 ≤ newtonMaxIterations := by
  refine ⟨?_, ?_, (findRoots_iteration_policy (fun x => x) (fun _ => 1) [] 5).2.2.2.1⟩
  · exact (findRoots_iteration_policy (fun x => x) (fun _ => 1) [] 5).2.1 5 1
      (by norm_num [derivThreshold]) (by norm_num [newtonTolerance])
  · exact (findRoots_iteration_policy (fun x => x) (fun _ => (0 : ℚ)) [] 5).1 5 1
      (by norm_num [derivThreshold])

/-- C4: a converged candidate is appended to the accepted list exactly
when it is at least rootTolerance away from every already-accepted root
and its residual |f(candidate)| is below rootTolerance; every root
findRoots returns has residual below rootTolerance; the returned roots
are mutually at least rootTolerance apart; the returned sequence is
sorted ascending; and an empty result is a roots outcome, distinct from
every error outcome. -/
theorem findRoots_acceptance (f df : ℚ → ℚ) :
    (∀ (roots : List ℚ) (n : Nat) (x : ℚ), ¬|df x| < derivThreshold →
      |x - f x / df x - x| < newtonTolerance →
      newtonIter f df roots (n + 1) x =
        if (∀ r ∈ roots, ¬|r - (x - f x / df x)| < rootTolerance) ∧
            |f (x - f x / df x)| < rootTolerance
        then roots ++ [x - f x / df x] else roots) ∧
    (∀ r ∈ findRoots f df, |f r| < rootTolerance) ∧
    List.Pairwise (fun r s => rootTolerance ≤ |r - s|) (findRoots f df) ∧
    (findRoots f df).Sorted (· ≤ ·) ∧
    (∀ msg, PolyOutcome.roots (findRoots f df) ≠ PolyOutcome.err msg) := by
  have hperm := List.perm_insertionSort (fun a b : ℚ => a ≤ b)
    (seeds.foldl (fun roots s => newtonIter f df roots newtonMaxIterations s) [])
  have hfold := foldlNewton_preserves f df seeds []
    (fun r hr => absurd hr (List.not_mem_nil r)) List.Pairwise.nil
  refine ⟨?_, ?_, ?_, ?_, ?_⟩
  · intro roots n x h1 h2
    simp only [newtonIter]
    rw [if_neg h1, if_pos h2]
  · intro r hr
    exact hfold.1 r (hperm.mem_iff.mp hr)
  · have hsymm : ∀ {u v : ℚ}, rootTolerance ≤ |u - v| → rootTolerance ≤ |v - u| :=
      fun hab => by rwa [abs_sub_comm]
    exact hfold.2.perm hperm.symm hsymm
  · exact List.sorted_insertionSort _ _
  · exact fun msg h => PolyOutcome.noConfusion h

/-- Witness for C4: a converged Newton step of the identity function at
x = 0 goes through the acceptance test. -/
theorem findRoots_acceptance_witness :
    newtonIter (fun x => x) (fun _ => 1) [] 1 0 =
      (if (∀ r ∈ ([] : List ℚ), ¬|r - (0 - 0 / 1 : ℚ)| < rootTolerance) ∧
          |(0 - 0 / 1 : ℚ)| < rootTolerance
       then ([] : List ℚ) ++ [(0 - 0 / 1 : ℚ)] else []) :=
  (findRoots_acceptance (fun x => x) (fun _ => 1)).1 [] 0 0
    (by norm_num [derivThreshold]) (by norm_num [newtonTolerance])

/-- C9: the root finder terminates on every input: the seed scan visits
exactly the 41 seeds -10, -9.5, ..., 10, every seed runs at most
newtonMaxIterations Newton iterations, and the whole search performs at
most 41 * newtonMaxIterations iterations in total. -/
theorem findRoots_terminates (f df : ℚ → ℚ) :
    seeds.length = 41 ∧
    (∀ x, newtonSteps f df newtonMaxIterations x ≤ newtonMaxIterations) ∧
    (seeds.map (newtonSteps f df newtonMaxIterations)).sum ≤ 41 * newtonMaxIterations := by
  refine ⟨by rw [seeds, List.length_map, List.length_range], fun x => newtonSteps_le f df _ x, ?_⟩
  have hb : ∀ m ∈ seeds.map (newtonSteps f df newtonMaxIterations),
      m ≤ newtonMaxIterations := by
    intro m hm
    obtain ⟨a, _, rfl⟩ := List.mem_map.mp hm
    exact newtonSteps_le f df _ a
  have hsum := List.sum_le_card_nsmul _ newtonMaxIterations hb
  have hlen : (seeds.map (newtonSteps f df newtonMaxIterations)).length = 41 := by
    rw [List.length_map, seeds, List.length_map, List.length_range]
  rw [hlen] at hsum
  simpa using hsum

/-- Facts about digit characters, both as printed (lowercase) and after
toUpperCase: parseInt reads back the same digit value, and they are
never whitespace, signs, or an x/X prefix letter. -/
theorem digitChar_facts : ∀ d, d < 16 →
    digitVal (digitChar d) = some d ∧
    digitVal (Char.toUpper (digitChar d)) = some d ∧
    ¬(digitChar d).isWhitespace ∧ ¬(Char.toUpper (digitChar d)).isWhitespace ∧
    digitChar d ≠ '-' ∧ digitChar d ≠ '+' ∧
    Char.toUpper (digitChar d) ≠ '-' ∧ Char.toUpper (digitChar d) ≠ '+' ∧
    digitChar d ≠ 'x' ∧ digitChar d ≠ 'X' ∧
    Char.toUpper (digitChar d) ≠ 'x' ∧ Char.toUpper (digitChar d) ≠ 'X' := by decide

/-- takeWhile keeps a list all of whose elements pass the test. -/
theorem takeWhile_all {α : Type} (p : α → Bool) :
    ∀ l : List α, (∀ x ∈ l, p x) → l.takeWhile p = l := by
  intro l
  induction l with
  | nil => intro _; rfl
  | cons a l ih =>
    intro h
    have ha := h a (List.mem_cons_self a l)
    have hl := ih (fun x hx => h x (List.mem_cons_of_mem a hx))
    simp [List.takeWhile_cons, ha, hl]

/-- Reading back a most-significant-first digit string with the
parseInt accumulator recovers the little-endian digit value. -/
theorem foldl_digits_eq (b : ℕ) (T : Char → Char)
    (hT : ∀ d, d < b → digitVal (T (digitChar d)) = some d) :
    ∀ (ds : List ℕ), (∀ d ∈ ds, d < b) → ∀ acc : ℕ,
      ((ds.reverse.map (fun d => T (digitChar d))).foldl
        (fun acc c => acc * b + (digitVal c).getD 0) acc)
        = acc * b ^ ds.length + Nat.ofDigits b ds := by
  intro ds
  induction ds with
  | nil => intro _ acc; simp [Nat.ofDigits]
  | cons d ds ih =>
    intro hlt acc
    have hd : d < b := hlt d (List.mem_cons_self d ds)
    rw [List.reverse_cons, List.map_append, List.foldl_append]
    rw [ih (fun e he => hlt e (List.mem_cons_of_mem d he)) acc]
    simp only [List.map_cons, List.map_nil, List.foldl_cons, List.foldl_nil,
      hT d hd, Option.getD_some, Nat.ofDigits_cons, List.length_cons]
    ring

/-- parseIntM on a nonempty string of plain radix digits returns the
accumulator value of those digits. -/
theorem parseIntM_all_digits (b : ℕ) (c : Char) (cs : List Char)
    (hall : ∀ ch ∈ c :: cs, ∃ d, d < b ∧ digitVal ch = some d ∧ ¬ch.isWhitespace ∧
      ch ≠ '-' ∧ ch ≠ '+' ∧ ch ≠ 'x' ∧ ch ≠ 'X') :
    parseIntM ⟨c :: cs⟩ b =
      some (((c :: cs).foldl (fun acc ch => acc * b + (digitVal ch).getD 0) (0 : ℕ) : ℕ) : ℤ) := by
  obtain ⟨d0, _, hv0, hw0, hm0, hp0, _, _⟩ := hall c (List.mem_cons_self c cs)
  have hdrop : (c :: cs).dropWhile (fun ch => ch.isWhitespace) = c :: cs := by
    simp [List.dropWhile_cons, hw0]
  have hradix : ∀ ch ∈ c :: cs, isRadixDigit b ch = true := by
    intro ch hch
    obtain ⟨d, hd, hv, _⟩ := hall ch hch
    simp [isRadixDigit, hv, hd]
  have hstrip : stripSign (c :: cs) = (1, c :: cs) := by
    simp [stripSign, hm0, hp0]
  have hhex : stripHexPrefix b (c :: cs) = c :: cs := by
    rcases cs with _ | ⟨c1, rest⟩
    · unfold stripHexPrefix
      split <;> rfl
    · obtain ⟨d1, _, _, _, _, _, hx1, hX1⟩ :=
        hall c1 (List.mem_cons_of_mem c (List.mem_cons_self c1 rest))
      unfold stripHexPrefix
      split
      · show (if c = '0' ∧ (c1 = 'x' ∨ c1 = 'X') then rest else c :: c1 :: rest) =
          c :: c1 :: rest
        rw [if_neg]
        rintro ⟨-, hx | hX⟩
        · exact hx1 hx
        · exact hX1 hX
      · rfl
  simp only [parseIntM, hdrop, hstrip, hhex, takeWhile_all _ _ hradix]
  simp

/-- Printing a natural in base b (2..16) through a digit transform that
parseInt can read back (identity or uppercase), then parsing it again in
base b, recovers the number. -/
theorem parseIntM_toStringBase_map (b : ℕ) (hb2 : 2 ≤ b) (hb16 : b ≤ 16) (T : Char → Char)
    (hT : ∀ d, d < 16 → digitVal (T (digitChar d)) = some d ∧ ¬(T (digitChar d)).isWhitespace ∧
      T (digitChar d) ≠ '-' ∧ T (digitChar d) ≠ '+' ∧
      T (digitChar d) ≠ 'x' ∧ T (digitChar d) ≠ 'X') (m : ℕ) :
    parseIntM ⟨(toStringBase b m).data.map T⟩ b = some (m : ℤ) := by
  by_cases hm : m = 0
  · subst hm
    have h0 := hT 0 (by norm_num)
    have h := parseIntM_all_digits b (T '0') []
      (by
        intro ch hch
        rw [List.mem_singleton.mp hch]
        exact ⟨0, by omega, h0.1, h0.2.1, h0.2.2.1, h0.2.2.2.1, h0.2.2.2.2.1, h0.2.2.2.2.2⟩)
    rw [show (toStringBase b 0).data.map T = [T '0'] from rfl]
    rw [h]
    rw [show ('0' : Char) = digitChar 0 from rfl]
    simp [h0.1]
  · have hlist : (toStringBase b m).data.map T =
        (Nat.digits b m).reverse.map (fun d => T (digitChar d)) := by
      rw [toStringBase, if_neg hm]
      rw [show (String.mk ((Nat.digits b m).reverse.map digitChar)).data =
        (Nat.digits b m).reverse.map digitChar from rfl]
      rw [List.map_map]
      rfl
    have hmem : ∀ d ∈ (Nat.digits b m).reverse, d < b := by
      intro d hd
      exact Nat.digits_lt_base (by omega) (List.mem_reverse.mp hd)
    have hne : (Nat.digits b m).reverse ≠ [] := by
      simp [Nat.digits_ne_nil_iff_ne_zero.mpr hm]
    rcases hrev : (Nat.digits b m).reverse.map (fun d => T (digitChar d)) with _ | ⟨c, cs⟩
    · exact absurd (List.map_eq_nil_iff.mp hrev) hne
    · rw [hlist, hrev]
      have hall : ∀ ch ∈ c :: cs, ∃ d, d < b ∧ digitVal ch = some d ∧ ¬ch.isWhitespace ∧
          ch ≠ '-' ∧ ch ≠ '+' ∧ ch ≠ 'x' ∧ ch ≠ 'X' := by
        intro ch hch
        rw [← hrev] at hch
        obtain ⟨d, hd, rfl⟩ := List.mem_map.mp hch
        have hdb := hmem d hd
        obtain ⟨h1, h2, h3, h4, h5, h6⟩ := hT d (by omega)
        exact ⟨d, hdb, h1, h2, h3, h4, h5, h6⟩
      rw [parseIntM_all_digits b c cs hall]
      have hfold := foldl_digits_eq b T
        (fun d hd => (hT d (by omega)).1) (Nat.digits b m) (fun d hd => Nat.digits_lt_base (by omega) hd) 0
      rw [hrev] at hfold
      rw [hfold]
      simp [Nat.ofDigits_digits]

/-- Round trip for the plain (lowercase) printed representation. -/
theorem parseIntM_toStringBase (b : ℕ) (hb2 : 2 ≤ b) (hb16 : b ≤ 16) (m : ℕ) :
    parseIntM (toStringBase b m) b = some (m : ℤ) := by
  have h := parseIntM_toStringBase_map b hb2 hb16 (fun c => c)
    (by
      intro d hd
      obtain ⟨h1, _, h3, _, h5, h6, _, _, h9, h10, _, _⟩ := digitChar_facts d hd
      exact ⟨h1, h3, h5, h6, h9, h10⟩) m
  rw [show (toStringBase b m).data.map (fun c => c) = (toStringBase b m).data from
    List.map_id _] at h
  exact h

/-- Round trip for the uppercased hexadecimal representation. -/
theorem parseIntM_toUpper_toStringBase (b : ℕ) (hb2 : 2 ≤ b) (hb16 : b ≤ 16) (m : ℕ) :
    parseIntM (toUpperString (toStringBase b m)) b = some (m : ℤ) :=
  parseIntM_toStringBase_map b hb2 hb16 Char.toUpper
    (by
      intro d hd
      obtain ⟨_, h2, _, h4, _, _, h7, h8, _, _, h11, h12⟩ := digitChar_facts d hd
      exact ⟨h2, h4, h7, h8, h11, h12⟩) m

/-- C10: whenever the input parses in the selected base to a
non-negative integer n, convert produces the binary, octal, decimal and
uppercased hexadecimal representations, and each of the four parses back
in its base to the same n; an unparseable input (NaN) or a negative
value instead produces an error and no converted results. -/
theorem convert_round_trip (input : String) (fromBase : ℕ) :
    (∀ n : ℤ, parseIntM input fromBase = some n → 0 ≤ n →
      convert input fromBase =
        Except.ok (toStringBase 2 n.toNat, toStringBase 8 n.toNat, toStringBase 10 n.toNat,
          toUpperString (toStringBase 16 n.toNat)) ∧
      parseIntM (toStringBase 2 n.toNat) 2 = some n ∧
      parseIntM (toStringBase 8 n.toNat) 8 = some n ∧
      parseIntM (toStringBase 10 n.toNat) 10 = some n ∧
      parseIntM (toUpperString (toStringBase 16 n.toNat)) 16 = some n) ∧
    (parseIntM input fromBase = none →
      convert input fromBase = Except.error "Invalid number") ∧
    (∀ n : ℤ, parseIntM input fromBase = some n → n < 0 →
      convert input fromBase = Except.error "Please enter a non-negative number") := by
  refine ⟨?_, ?_, ?_⟩
  · intro n hp h0
    have htn : ((n.toNat : ℕ) : ℤ) = n := Int.toNat_of_nonneg h0
    refine ⟨by simp [convert, hp, not_lt.mpr h0], ?_, ?_, ?_, ?_⟩
    · rw [parseIntM_toStringBase 2 (by norm_num) (by norm_num) n.toNat, htn]
    · rw [parseIntM_toStringBase 8 (by norm_num) (by norm_num) n.toNat, htn]
    · rw [parseIntM_toStringBase 10 (by norm_num) (by norm_num) n.toNat, htn]
    · rw [parseIntM_toUpper_toStringBase 16 (by norm_num) (by norm_num) n.toNat, htn]
  · intro hp
    simp [convert, hp]
  · intro n hp hneg
    simp [convert, hp, hneg]

/-- Witness for C10 at the default input: "255" in base 10 converts to
("11111111", "377", "255", "FF") and all four parse back to 255. -/
theorem convert_round_trip_witness :
    convert "255" 10 =
      Except.ok (toStringBase 2 (255 : ℤ).toNat, toStringBase 8 (255 : ℤ).toNat,
        toStringBase 10 (255 : ℤ).toNat, toUpperString (toStringBase 16 (255 : ℤ).toNat)) ∧
    parseIntM (toStringBase 2 (255 : ℤ).toNat) 2 = some 255 ∧
    parseIntM (toStringBase 8 (255 : ℤ).toNat) 8 = some 255 ∧
    parseIntM (toStringBase 10 (255 : ℤ).toNat) 10 = some 255 ∧
    parseIntM (toUpperString (toStringBase 16 (255 : ℤ).toNat)) 16 = some 255 :=
  (convert_round_trip "255" 10).1 255 (by decide) (by decide)

/-- C6: the 2x2 system solver errors in exactly two situations - some
input fails the equation pattern (format error), or the determinant is
exactly 0 (no-unique-solution error, with no division attempted) - and
in every other case it returns the Cramer quotients as its numeric
result. -/
theorem solveSystem_error_cases (eq1 eq2 : String) :
    (parseEquation eq1 = none ∨ parseEquation eq2 = none →
      solveSystem eq1 eq2 = Except.error "Invalid equation format. Use \"ax + by = c\"") ∧
    (∀ t1 t2, parseEquation eq1 = some t1 → parseEquation eq2 = some t2 →
      nSub (nMul t1.1 t2.2.1) (nMul t2.1 t1.2.1) = some 0 →
      solveSystem eq1 eq2 = Except.error "System has no unique solution (determinant = 0)") ∧
    (∀ t1 t2, parseEquation eq1 = some t1 → parseEquation eq2 = some t2 →
      nSub (nMul t1.1 t2.2.1) (nMul t2.1 t1.2.1) ≠ some 0 →
      solveSystem eq1 eq2 = Except.ok
        (nDiv (nSub (nMul t1.2.2 t2.2.1) (nMul t2.2.2 t1.2.1))
          (nSub (nMul t1.1 t2.2.1) (nMul t2.1 t1.2.1)),
         nDiv (nSub (nMul t1.1 t2.2.2) (nMul t2.1 t1.2.2))
          (nSub (nMul t1.1 t2.2.1) (nMul t2.1 t1.2.1)))) ∧
    (∀ m, solveSystem eq1 eq2 = Except.error m →
      parseEquation eq1 = none ∨ parseEquation eq2 = none ∨
        ∃ t1 t2, parseEquation eq1 = some t1 ∧ parseEquation eq2 = some t2 ∧
          nSub (nMul t1.1 t2.2.1) (nMul t2.1 t1.2.1) = some 0) := by
  refine ⟨?_, ?_, ?_, ?_⟩
  · intro h
    rcases hp1 : parseEquation eq1 with _ | ⟨⟨a1, b1, c1⟩⟩ <;>
      rcases hp2 : parseEquation eq2 with _ | ⟨⟨a2, b2, c2⟩⟩ <;>
      simp only [solveSystem, hp1, hp2] <;>
      first
        | rfl
        | (rcases h with h | h <;> simp_all)
  · rintro ⟨a1, b1, c1⟩ ⟨a2, b2, c2⟩ hp1 hp2 hdet
    simp only [solveSystem, hp1, hp2]
    rw [if_pos hdet]
  · rintro ⟨a1, b1, c1⟩ ⟨a2, b2, c2⟩ hp1 hp2 hdet
    simp only [solveSystem, hp1, hp2]
    rw [if_neg hdet]
  · intro m hm
    rcases hp1 : parseEquation eq1 with _ | ⟨⟨a1, b1, c1⟩⟩
    · exact Or.inl rfl
    · rcases hp2 : parseEquation eq2 with _ | ⟨⟨a2, b2, c2⟩⟩
      · exact Or.inr (Or.inl rfl)
      · refine Or.inr (Or.inr ⟨(a1, b1, c1), (a2, b2, c2), rfl, rfl, ?_⟩)
        simp only [solveSystem, hp1, hp2] at hm
        by_contra hdet
        rw [if_neg hdet] at hm
        exact Except.noConfusion hm

/-- Witness for C6 on the default system (2x + 3y = 8, 1x - 1y = 1):
both equations match the pattern, the determinant is -5, and the solver
returns the Cramer quotients. -/
theorem solveSystem_error_cases_witness :
    solveSystem "2x + 3y = 8" "1x - 1y = 1" = Except.ok
      (nDiv (nSub (nMul (some 8) (some (-1))) (nMul (some 1) (some 3)))
        (nSub (nMul (some 2) (some (-1))) (nMul (some 1) (some 3))),
       nDiv (nSub (nMul (some 2) (some 1)) (nMul (some 1) (some 8)))
        (nSub (nMul (some 2) (some (-1))) (nMul (some 1) (some 3)))) := by
  have hv2 : parseFloatQ ['2'] = some 2 := by simp [parseFloatQ, digitsToNat]
  have hv3 : parseFloatQ ['+', '3'] = some 3 := by simp [parseFloatQ, digitsToNat]
  have hv8 : parseFloatQ ['8'] = some 8 := by simp [parseFloatQ, digitsToNat]
  have hv1 : parseFloatQ ['1'] = some 1 := by simp [parseFloatQ, digitsToNat]
  have hvm1 : parseFloatQ ['-', '1'] = some (-1) := by simp [parseFloatQ, digitsToNat]
  have hp1 : parseEquation "2x + 3y = 8" = some (some 2, some 3, some 8) := by
    rw [show parseEquation "2x + 3y = 8" =
      some (parseFloatQ ['2'], parseFloatQ ['+', '3'], parseFloatQ ['8']) from rfl,
      hv2, hv3, hv8]
  have hp2 : parseEquation "1x - 1y = 1" = some (some 1, some (-1), some 1) := by
    rw [show parseEquation "1x - 1y = 1" =
      some (parseFloatQ ['1'], parseFloatQ ['-', '1'], parseFloatQ ['1']) from rfl,
      hv1, hvm1]
  have hdet : nSub (nMul (some (2 : ℚ)) (some (-1))) (nMul (some 1) (some 3)) ≠ some 0 := by
    simp [nSub, nMul]
    norm_num
  exact (solveSystem_error_cases "2x + 3y = 8" "1x - 1y = 1").2.2.1
    (some 2, some 3, some 8) (some 1, some (-1), some 1) hp1 hp2 hdet

/-- The first sampled point of a 1-point window starts at xStart. -/
theorem generateGraphPoints_head (f : ℚ → Option JsNum) (a b : ℚ) :
    (generateGraphPoints f a b 1).head? = some (a,
      match f a with
      | some (JsNum.fin q) => some q
      | _ => none) := by
  have harg : a + (b - a) * ((0 : ℕ) : ℚ) / ((1 : ℕ) : ℚ) = a := by push_cast; ring
  simp only [generateGraphPoints]
  rw [show List.range (1 + 1) = [0, 1] from rfl]
  simp only [List.map_cons, List.head?_cons]
  rw [harg]
  rcases hv : f a with _ | q
  · simp [hv]
  · rcases q with q | _ | _ | _ <;> simp [hv]

/-- C7: in piecewise sampling, a segment whose domain condition fails
at x contributes null at x; when the condition holds and the expression
is nonempty, the sampled y is null exactly when the evaluation errors,
returns a non-finite value, or falls outside the y-window, and is the
evaluated value otherwise; and every sample column is produced
regardless (501 columns, one entry per segment), so a bad sample never
aborts the sequence. -/
theorem graphData_pointwise (evalOf : String → ℚ → Option JsNum) (segs : List PSeg)
    (xMin xMax yMin yMax : ℚ) :
    (∀ (step x : ℚ) (seg : PSeg), evaluateCondition x seg = false →
      samplePoint evalOf yMin yMax step x seg = none) ∧
    (∀ (step x : ℚ) (seg : PSeg), jsTrim seg.expression ≠ [] →
      evaluateCondition x seg = true →
      (evalOf seg.expression (x - step / 2) = none →
        samplePoint evalOf yMin yMax step x seg = none) ∧
      (∀ j, evalOf seg.expression (x - step / 2) = some j → (∀ y : ℚ, j ≠ JsNum.fin y) →
        samplePoint evalOf yMin yMax step x seg = none) ∧
      (∀ y : ℚ, evalOf seg.expression (x - step / 2) = some (JsNum.fin y) →
        samplePoint evalOf yMin yMax step x seg =
          if yMin ≤ y ∧ y ≤ yMax then some y else none)) ∧
    (graphData evalOf segs xMin xMax yMin yMax).length = 501 ∧
    (∀ p ∈ graphData evalOf segs xMin xMax yMin yMax, p.2.length = segs.length) := by
  refine ⟨?_, ?_, ?_, ?_⟩
  · intro step x seg hc
    simp only [samplePoint]
    rw [if_neg]
    rintro ⟨-, hc2⟩
    rw [hc] at hc2
    exact Bool.false_ne_true hc2
  · intro step x seg hex hc
    have hopen : samplePoint evalOf yMin yMax step x seg =
        match (generateGraphPoints (evalOf seg.expression)
            (x - step / 2) (x + step / 2) 1).head? with
        | some (_, some y) => if yMin ≤ y ∧ y ≤ yMax then some y else none
        | _ => none := by
      simp only [samplePoint]
      rw [if_pos ⟨hex, hc⟩]
    rw [generateGraphPoints_head] at hopen
    refine ⟨?_, ?_, ?_⟩
    · intro hv
      rw [hopen, hv]
    · intro j hv hj
      rw [hopen, hv]
      rcases j with q | _ | _ | _
      · exact absurd rfl (hj q)
      · rfl
      · rfl
      · rfl
    · intro y hv
      rw [hopen, hv]
  · simp [graphData]
  · intro p hp
    simp only [graphData, List.mem_map] at hp
    obtain ⟨i, _, rfl⟩ := hp
    simp

/-- Witness for C7: with an evaluator returning the sample point itself
and the segment (f(x) = x for x < 0), the condition is false at x = 5
(null), and true at x = -1 where the sampled value goes through the
window check. -/
theorem graphData_pointwise_witness :
    samplePoint (fun _ q => some (JsNum.fin q)) (-10) 10 (1 / 25) 5
      ⟨"x", PCond.lt, some 0, none⟩ = none ∧
    samplePoint (fun _ q => some (JsNum.fin q)) (-10) 10 (1 / 25) (-1)
      ⟨"x", PCond.lt, some 0, none⟩ =
      (if (-10 : ℚ) ≤ -1 - 1 / 25 / 2 ∧ (-1 : ℚ) - 1 / 25 / 2 ≤ 10
       then some ((-1 : ℚ) - 1 / 25 / 2) else none) := by
  constructor
  · exact (graphData_pointwise (fun _ q => some (JsNum.fin q)) [] 0 0 (-10) 10).1
      (1 / 25) 5 ⟨"x", PCond.lt, some 0, none⟩ (by decide)
  · exact ((graphData_pointwise (fun _ q => some (JsNum.fin q)) [] 0 0 (-10) 10).2.1
      (1 / 25) (-1) ⟨"x", PCond.lt, some 0, none⟩ (by decide) (by decide)).2.2
      ((-1 : ℚ) - 1 / 25 / 2) rfl

/-- C8: the Evaluator is deterministic and stateless across calls: two
successive calls on the same expression and bindings return the same
EvalResult, and a call through an explicit session history neither
reads the history (any two histories give the same result) nor records
anything beyond the appended call itself. -/
theorem evaluate_deterministic (e : String) (b : List (String × ℚ)) :
    (evaluateTwice e b).1 = (evaluateTwice e b).2 ∧
    (∀ h1 h2 : List (String × List (String × ℚ)),
      (evalSession h1 e b).1 = (evalSession h2 e b).1) ∧
    (∀ h : List (String × List (String × ℚ)), (evalSession h e b).2 = h ++ [(e, b)]) :=
  ⟨rfl, fun _ _ => rfl, fun _ => rfl⟩

set_option maxRecDepth 1000000 in
set_option maxHeartbeats 400000000 in
/-- C5: running the multi-seed Newton-Raphson search on
x^3 - 6x^2 + 11x - 6 over the seeds covering [-10, 10], under binary64
arithmetic, returns exactly three roots, within 1e-4 of 1, 2 and 3
respectively, and no others.  (The computed doubles are exactly 1.0,
2.0 and 3.0.) -/
theorem findRootsF_cubic_roots :
    ∃ r1 r2 r3 : F64, findRootsF = [r1, r2, r3] ∧
      |r1.toQ - 1| < 1 / 10 ^ 4 ∧ |r2.toQ - 2| < 1 / 10 ^ 4 ∧ |r3.toQ - 3| < 1 / 10 ^ 4 := by
  refine ⟨⟨false, 4503599627370496, 1048⟩, ⟨false, 4503599627370496, 1049⟩,
    ⟨false, 6755399441055744, 1049⟩, by decide, ?_, ?_, ?_⟩
  · norm_num [F64.toQ]
  · norm_num [F64.toQ]
  · norm_num [F64.toQ]

end Graphium
